import Mathlib

/-!
Verification of the Galton-board simulation (galton.py and its variants).

The Python source is embedded shallowly:

* machine floats become exact rationals;
* Python `int(...)` truncation becomes an explicit `pyInt` on ℚ;
* the collision callback, the spawn branch of the main loop, the main-loop
  termination check, the peg/separator layout formulas and the offline audio
  synthesis block are each translated into a Lean definition that mirrors the
  corresponding source lines;
* numpy buffers become lists of rationals, and a numpy slice-addition is an
  index-wise addition (theorems that rely on it carry the in-bounds
  hypothesis under which the slice-addition is defined in numpy).
-/

namespace Galton

/-! ## Configuration constants (galton.py lines 14-52) -/

def SCREEN_WIDTH : ℚ := 512
def SCREEN_HEIGHT : ℚ := 768
def FPS : ℕ := 60
def LEVELS : ℤ := 10
def BALL_COUNT : ℕ := 200
/-- DROP_INTERVAL = 0.25 seconds between drops. -/
def DROP_INTERVAL : ℚ := 1/4
/-- PEG_RADIUS = int(SCREEN_WIDTH * 0.005) = int(2.56...) = 2. -/
def PEG_RADIUS : ℕ := 2
def SAMPLE_RATE : ℚ := 44100
def VELOCITY_THRESHOLD : ℚ := 50

/-- Python `int(...)` applied to a rational: truncation toward zero. -/
def pyInt (q : ℚ) : ℤ := if 0 ≤ q then ⌊q⌋ else -⌊-q⌋

theorem pyInt_of_nonneg {q : ℚ} (h : 0 ≤ q) : pyInt q = ⌊q⌋ := if_pos h

theorem pyInt_nonneg {q : ℚ} (h : 0 ≤ q) : 0 ≤ pyInt q := by
  rw [pyInt_of_nonneg h]; exact Int.floor_nonneg.mpr h

/-! ## Collision classifier (galton.py lines 76-90)

`handle_collision` reads the ball body's vertical velocity `vy`; when
`abs(vy) > VELOCITY_THRESHOLD` it appends
`(pygame.time.get_ticks() - start_time) / 1000.0` to `collision_times` and
plays the live cue, and in every case it returns `True`.  The mutation of the
module-level `collision_times` list is made explicit: the function takes the
current log and returns the new log together with the returned boolean. -/

def handle_collision (log : List ℚ) (vy nowMs startMs : ℚ) : List ℚ × Bool :=
  if VELOCITY_THRESHOLD < |vy| then
    (log ++ [(nowMs - startMs) / 1000], true)
  else
    (log, true)

/-! ## Spawner (galton.py lines 210-218, spawn branch of the main loop)

Per tick the loop adds the tick's `dt` to `spawn_timer`; when
`balls_dropped < BALL_COUNT and spawn_timer >= DROP_INTERVAL` it adds one
ball, increments `balls_dropped` and subtracts `DROP_INTERVAL` from the
accumulator.  The state also tracks the elapsed time `now` and the list of
times at which balls were spawned. -/

structure SpawnState where
  balls_dropped : ℕ
  spawn_timer : ℚ
  now : ℚ
  spawn_times : List ℚ
deriving DecidableEq, Repr

def initSpawn : SpawnState := ⟨0, 0, 0, []⟩

def spawnTick (ballCount : ℕ) (dropInterval : ℚ) (s : SpawnState) (dt : ℚ) :
    SpawnState :=
  let timer := s.spawn_timer + dt
  let now := s.now + dt
  if s.balls_dropped < ballCount ∧ dropInterval ≤ timer then
    ⟨s.balls_dropped + 1, timer - dropInterval, now, s.spawn_times ++ [now]⟩
  else
    ⟨s.balls_dropped, timer, now, s.spawn_times⟩

def runSpawner (ballCount : ℕ) (dropInterval : ℚ) (dts : List ℚ) : SpawnState :=
  dts.foldl (spawnTick ballCount dropInterval) initSpawn

/-- Invariant of the spawner state: the accumulator always equals the elapsed
time minus `dropInterval` per spawned ball, one spawn time is recorded per
spawned ball, and the k-th spawn (0-based index i, so k = i + 1) happened no
earlier than k * dropInterval. -/
def SpawnInv (dropInterval : ℚ) (s : SpawnState) : Prop :=
  s.spawn_timer = s.now - (s.balls_dropped : ℚ) * dropInterval ∧
  s.spawn_times.length = s.balls_dropped ∧
  ∀ i (h : i < s.spawn_times.length),
    ((i : ℚ) + 1) * dropInterval ≤ s.spawn_times.get ⟨i, h⟩

theorem spawnTick_inv {c : ℕ} {I : ℚ} {s : SpawnState} (dt : ℚ)
    (h : SpawnInv I s) : SpawnInv I (spawnTick c I s dt) := by
  obtain ⟨heq, hlen, hbound⟩ := h
  unfold spawnTick
  by_cases hc : s.balls_dropped < c ∧ I ≤ s.spawn_timer + dt
  · rw [if_pos hc]
    refine ⟨by push_cast; rw [heq]; ring, by simp [hlen], ?_⟩
    intro i hi
    rcases lt_or_ge i s.spawn_times.length with hlt | hge
    · have hg : (s.spawn_times ++ [s.now + dt]).get ⟨i, hi⟩
          = s.spawn_times.get ⟨i, hlt⟩ := by
        simp [List.getElem_append_left hlt]
      rw [hg]
      exact hbound i hlt
    · have hile : i = s.spawn_times.length := by
        simp only [List.length_append, List.length_singleton] at hi
        omega
      subst hile
      have : (s.spawn_times ++ [s.now + dt]).get ⟨s.spawn_times.length, hi⟩
          = s.now + dt := by
        simp
      rw [this]
      have h2 := hc.2
      rw [heq] at h2
      have : ((s.spawn_times.length : ℚ) + 1) * I
          = (s.balls_dropped : ℚ) * I + I := by rw [hlen]; ring
      rw [this]
      linarith
  · rw [if_neg hc]
    exact ⟨by rw [heq]; ring, hlen, hbound⟩

theorem foldl_spawnTick_inv {c : ℕ} {I : ℚ} (dts : List ℚ) (s : SpawnState)
    (h : SpawnInv I s) : SpawnInv I (dts.foldl (spawnTick c I) s) := by
  induction dts generalizing s with
  | nil => exact h
  | cons dt dts ih => exact ih _ (spawnTick_inv dt h)

theorem runSpawner_inv (c : ℕ) (I : ℚ) (dts : List ℚ) :
    SpawnInv I (runSpawner c I dts) := by
  refine foldl_spawnTick_inv dts initSpawn ⟨?_, rfl, ?_⟩
  · simp [initSpawn]
  · intro i h
    simp [initSpawn] at h

theorem spawnTick_dropped_le {c : ℕ} {I : ℚ} {s : SpawnState} (dt : ℚ)
    (h : s.balls_dropped ≤ c) : (spawnTick c I s dt).balls_dropped ≤ c := by
  unfold spawnTick
  by_cases hc : s.balls_dropped < c ∧ I ≤ s.spawn_timer + dt
  · rw [if_pos hc]
    exact hc.1
  · rw [if_neg hc]
    exact h

/-! ## Main loop with termination check (galton.py lines 205-237)

Beyond the spawn branch, the loop records `last_ball_drop_time` on each spawn
(`None` before the first spawn) and, at the end of a tick, stops when
`last_ball_drop_time and (now - last_ball_drop_time > timeout)` holds.
Python truthiness of the `and` is kept: a `None` (here `none`) and a stored
time equal to `0` are both falsy, so they never stop the loop.  The QUIT
event branch is not modelled (no quit event occurs).  All times are in
seconds; the source's `10000` milliseconds is the parameter `timeout` in
seconds. -/

structure LoopState where
  spawn : SpawnState
  last_ball_drop_time : Option ℚ
  running : Bool
deriving DecidableEq, Repr

def initLoop : LoopState := ⟨initSpawn, none, true⟩

def loopTick (ballCount : ℕ) (dropInterval timeout : ℚ) (s : LoopState)
    (dt : ℚ) : LoopState :=
  if s.running then
    let timer := s.spawn.spawn_timer + dt
    let now := s.spawn.now + dt
    let st : SpawnState × Option ℚ :=
      if s.spawn.balls_dropped < ballCount ∧ dropInterval ≤ timer then
        (⟨s.spawn.balls_dropped + 1, timer - dropInterval, now,
          s.spawn.spawn_times ++ [now]⟩, some now)
      else
        (⟨s.spawn.balls_dropped, timer, now, s.spawn.spawn_times⟩,
         s.last_ball_drop_time)
    let running : Bool :=
      match st.2 with
      | none => true
      | some t => if t ≠ 0 ∧ timeout < now - t then false else true
    ⟨st.1, st.2, running⟩
  else s

def runLoop (ballCount : ℕ) (dropInterval timeout : ℚ) (dts : List ℚ) :
    LoopState :=
  dts.foldl (loopTick ballCount dropInterval timeout) initLoop

/-! ## Board layout (galton.py lines 135-184)

The layout formulas are stated parametrically in the canvas width `W`,
height `H`, integer peg radius `r` and the level count; the source
instantiates them at `W = 512`, `H = 768`, `r = 2`, `levels = 10`.  The
level count is an integer so that the behaviour at zero and negative level
counts can be examined. -/

def offset_y (H : ℚ) (levels : ℤ) : ℚ := H / ((levels : ℚ) + 4)

def spacing_x (W : ℚ) (levels : ℤ) : ℚ := W / ((levels : ℚ) + 1)

def max_pegs_even (W : ℚ) (r : ℕ) (levels : ℤ) : ℤ :=
  pyInt ((W - 2 * (r : ℚ)) / spacing_x W levels) + 1

def occupied_width (W : ℚ) (r : ℕ) (levels : ℤ) : ℚ :=
  ((max_pegs_even W r levels : ℚ) - 1) * spacing_x W levels

def left_margin (W : ℚ) (r : ℕ) (levels : ℤ) : ℚ :=
  (W - occupied_width W r levels) / 2

/-- Number of pegs in row `row` (galton.py lines 144-149): `max_pegs_even`
for even rows, one fewer for odd rows.  A nonpositive count gives an empty
Python `range`, hence `Int.toNat` at the use sites. -/
def rowCount (W : ℚ) (r : ℕ) (levels : ℤ) (row : ℕ) : ℤ :=
  if row % 2 = 0 then max_pegs_even W r levels else max_pegs_even W r levels - 1

def rowStart (W : ℚ) (r : ℕ) (levels : ℤ) (row : ℕ) : ℚ :=
  if row % 2 = 0 then left_margin W r levels
  else left_margin W r levels + spacing_x W levels / 2

/-- The peg x-coordinates of row `row`: `x_start + i * spacing_x` for
`i in range(pegs_in_row)` (galton.py lines 151-153). -/
def rowXs (W : ℚ) (r : ℕ) (levels : ℤ) (row : ℕ) : List ℚ :=
  List.ofFn (fun i : Fin (rowCount W r levels row).toNat =>
    rowStart W r levels row + (i : ℚ) * spacing_x W levels)

/-- The peg rows, one per level (galton.py line 142: `for row in range(LEVELS)`). -/
def pegRows (W : ℚ) (r : ℕ) (levels : ℤ) : List (List ℚ) :=
  List.ofFn (fun row : Fin levels.toNat => rowXs W r levels (row : ℕ))

/-! Bin separators (galton.py lines 159-184). -/

def bottom_row (levels : ℤ) : ℤ := levels - 1

def bottom_count (W : ℚ) (r : ℕ) (levels : ℤ) : ℤ :=
  if bottom_row levels % 2 = 0 then max_pegs_even W r levels
  else max_pegs_even W r levels - 1

def bottom_start (W : ℚ) (r : ℕ) (levels : ℤ) : ℚ :=
  if bottom_row levels % 2 = 0 then left_margin W r levels
  else left_margin W r levels + spacing_x W levels / 2

def bottom_centers (W : ℚ) (r : ℕ) (levels : ℤ) : List ℚ :=
  List.ofFn (fun i : Fin (bottom_count W r levels).toNat =>
    bottom_start W r levels + (i : ℚ) * spacing_x W levels)

def walls_x (W : ℚ) (r : ℕ) (levels : ℤ) : List ℚ :=
  [0] ++ bottom_centers W r levels ++ [W]

/-- margin = PEG_RADIUS // 2 (Python floor division on a nonnegative int). -/
def sepMargin (r : ℕ) : ℕ := r / 2

def y_bottom (H : ℚ) (levels : ℤ) : ℚ :=
  offset_y H levels * ((bottom_row levels : ℚ) + 2)

def wall_top_y (H : ℚ) (r : ℕ) (levels : ℤ) : ℚ :=
  y_bottom H levels - (sepMargin r : ℚ)

/-- The separator segments (galton.py lines 178-184): for each `x` in
`walls_x`, a segment from `(x, SCREEN_HEIGHT)` to `(x, wall_top_y)`. -/
def wallSegs (W H : ℚ) (r : ℕ) (levels : ℤ) : List ((ℚ × ℚ) × (ℚ × ℚ)) :=
  (walls_x W r levels).map (fun x => ((x, H), (x, wall_top_y H r levels)))

/-- The two divisions of galton.py lines 135-136 (`offset_y`, `spacing_x`)
raise a Python ZeroDivisionError when `levels = -4` or `levels = -1`; in
every other case layout generation proceeds with the two spacings and never
signals any error. -/
def layoutSpacings (W H : ℚ) (levels : ℤ) : Option (ℚ × ℚ) :=
  if levels + 4 = 0 ∨ levels + 1 = 0 then none
  else some (offset_y H levels, spacing_x W levels)

/-! ## Offline audio synthesis (galton.py lines 245-254)

The block computes `video_duration = len(frames) / FPS`, allocates
`np.zeros(int(SAMPLE_RATE * video_duration) + len(tick_waveform))`, then for
each recorded collision time `ct` adds the envelope onto the slice starting
at `int(ct * SAMPLE_RATE)`, and finally clips to `[-1, 1]`.  The envelope
(`tick_waveform`, a windowed sine of irrational sample values) is a
parameter `env`.  The numpy slice-addition
`audio_samples[idx_start:idx_end] += tick_waveform` is defined (for
`idx_end <= len(audio_samples)`) as index-wise addition of the envelope
shifted to start at `idx_start`; out-of-bounds slices raise in numpy, so
theorems about the synthesis carry the in-bounds hypothesis. -/

/-- Value contributed at buffer index `i` by one envelope copy laid down at
start index `s` (zero outside the envelope's extent). -/
def envAt (env : List ℚ) (s i : ℕ) : ℚ :=
  if s ≤ i then env.getD (i - s) 0 else 0

/-- One slice-addition: add an envelope copy starting at index `s` onto the
buffer, index-wise. -/
def overlayAt (env : List ℚ) (s : ℕ) (buf : List ℚ) : List ℚ :=
  buf.mapIdx (fun i v => v + envAt env s i)

/-- np.clip(x, -1.0, 1.0) on one sample. -/
def clip1 (x : ℚ) : ℚ := max (-1) (min 1 x)

/-- Sample index of a collision time: `int(ct * SAMPLE_RATE)`. -/
def eventIdx (t : ℚ) : ℕ := (pyInt (t * SAMPLE_RATE)).toNat

/-- Length of the allocated buffer:
`int(SAMPLE_RATE * (len(frames) / FPS)) + len(tick_waveform)`. -/
def bufLen (env : List ℚ) (nframes : ℕ) : ℕ :=
  (pyInt (SAMPLE_RATE * ((nframes : ℚ) / (FPS : ℚ)))).toNat + env.length

/-- The audio-synthesis block itself: zero buffer, one slice-addition per
logged collision time in log order, then clipping. -/
def synthAudio (env : List ℚ) (log : List ℚ) (nframes : ℕ) : List ℚ :=
  ((log.foldl (fun b t => overlayAt env (eventIdx t) b)
      (List.replicate (bufLen env nframes) 0)).map clip1)

/-- Reference waveform in the spec's terms, parametric in the function
taking a timestamp to its starting sample index: sample `i` is the clipped
sum, over all logged events, of the envelope contribution at `i`. -/
def synthRef (idx : ℚ → ℕ) (env : List ℚ) (log : List ℚ) (nframes : ℕ) :
    List ℚ :=
  List.ofFn (fun i : Fin (bufLen env nframes) =>
    clip1 ((log.map (fun t => envAt env (idx t) (i : ℕ))).sum))

/-- The index function the spec prescribes: round(timestamp * sampleRate). -/
def roundIdx (t : ℚ) : ℕ := (round (t * SAMPLE_RATE)).toNat

theorem length_overlayAt (env : List ℚ) (s : ℕ) (buf : List ℚ) :
    (overlayAt env s buf).length = buf.length := by
  simp [overlayAt]

theorem getD_overlayAt (env : List ℚ) (s : ℕ) (buf : List ℚ) (i : ℕ)
    (h : i < buf.length) :
    (overlayAt env s buf).getD i 0 = buf.getD i 0 + envAt env s i := by
  have h' : i < (overlayAt env s buf).length := by rw [length_overlayAt]; exact h
  rw [List.getD_eq_getElem _ _ h', List.getD_eq_getElem _ _ h]
  have hm := List.get_mapIdx buf (fun i v => v + envAt env s i) i h h'
  simp only [overlayAt, List.get_eq_getElem] at hm
  exact hm

theorem length_foldl_overlay (env : List ℚ) (idx : ℚ → ℕ) (log : List ℚ)
    (buf : List ℚ) :
    (log.foldl (fun b t => overlayAt env (idx t) b) buf).length
      = buf.length := by
  induction log generalizing buf with
  | nil => rfl
  | cons t ts ih => rw [List.foldl_cons, ih, length_overlayAt]

theorem getD_foldl_overlay (env : List ℚ) (idx : ℚ → ℕ) (log : List ℚ)
    (buf : List ℚ) (i : ℕ) (h : i < buf.length) :
    (log.foldl (fun b t => overlayAt env (idx t) b) buf).getD i 0
      = buf.getD i 0 + (log.map (fun t => envAt env (idx t) i)).sum := by
  induction log generalizing buf with
  | nil => simp
  | cons t ts ih =>
    rw [List.foldl_cons]
    have hb : i < (overlayAt env (idx t) buf).length := by
      rw [length_overlayAt]; exact h
    rw [ih (overlayAt env (idx t) buf) hb, getD_overlayAt env (idx t) buf i h]
    simp [add_assoc]

theorem length_synthAudio (env log : List ℚ) (nframes : ℕ) :
    (synthAudio env log nframes).length = bufLen env nframes := by
  simp [synthAudio, length_foldl_overlay]

theorem getD_map_clip1 (l : List ℚ) (i : ℕ) (h : i < l.length) :
    (l.map clip1).getD i 0 = clip1 (l.getD i 0) := by
  rw [List.getD_eq_getElem _ _ (by simpa using h), List.getD_eq_getElem _ _ h,
    List.getElem_map]

theorem getD_synthAudio (env log : List ℚ) (nframes : ℕ) (i : ℕ)
    (h : i < bufLen env nframes) :
    (synthAudio env log nframes).getD i 0
      = clip1 ((log.map (fun t => envAt env (eventIdx t) i)).sum) := by
  have hf : i < (log.foldl (fun b t => overlayAt env (eventIdx t) b)
      (List.replicate (bufLen env nframes) 0)).length := by
    rw [length_foldl_overlay, List.length_replicate]; exact h
  unfold synthAudio
  rw [getD_map_clip1 _ i hf,
    getD_foldl_overlay env eventIdx log _ i (by simpa using h)]
  have hz : (List.replicate (bufLen env nframes) (0 : ℚ)).getD i 0 = 0 := by
    rw [List.getD_eq_getElem _ _ (by simpa using h), List.getElem_replicate]
  rw [hz, zero_add]

theorem length_synthRef (idx : ℚ → ℕ) (env log : List ℚ) (nframes : ℕ) :
    (synthRef idx env log nframes).length = bufLen env nframes := by
  simp [synthRef]

theorem getD_synthRef (idx : ℚ → ℕ) (env log : List ℚ) (nframes : ℕ) (i : ℕ)
    (h : i < bufLen env nframes) :
    (synthRef idx env log nframes).getD i 0
      = clip1 ((log.map (fun t => envAt env (idx t) i)).sum) := by
  have hs : i < (synthRef idx env log nframes).length := by
    rw [length_synthRef]; exact h
  unfold synthRef at hs ⊢
  rw [List.getD_eq_getElem _ _ hs, List.getElem_ofFn]

/-! Concrete sample-index and buffer-length computations used below. -/

theorem bufLen_single_736 : bufLen [1] 1 = 736 := by
  simp only [bufLen, SAMPLE_RATE, FPS, List.length_singleton]
  have h : (44100 : ℚ) * ((1 : ℕ) : ℚ) / ((60 : ℕ) : ℚ) = 735 := by norm_num
  rw [show ((1 : ℕ) : ℚ) / ((60 : ℕ) : ℚ) = 1 / 60 by norm_num]
  rw [show (44100 : ℚ) * (1 / 60) = 735 by norm_num]
  rw [pyInt_of_nonneg (by norm_num)]
  rw [show ((735 : ℚ) : ℚ) = ((735 : ℤ) : ℚ) by norm_num, Int.floor_intCast]
  rfl

theorem eventIdx_one_sample : eventIdx (1/44100) = 1 := by
  simp only [eventIdx, SAMPLE_RATE]
  rw [show (1 / 44100 : ℚ) * 44100 = 1 by norm_num,
    pyInt_of_nonneg (by norm_num)]
  norm_num

theorem eventIdx_three_half : eventIdx (3/88200) = 1 := by
  simp only [eventIdx, SAMPLE_RATE]
  rw [show (3 / 88200 : ℚ) * 44100 = 3 / 2 by norm_num,
    pyInt_of_nonneg (by norm_num)]
  norm_num

theorem roundIdx_three_half : roundIdx (3/88200) = 2 := by
  simp only [roundIdx, SAMPLE_RATE]
  rw [show (3 / 88200 : ℚ) * 44100 = 3 / 2 by norm_num, round_eq]
  rw [show (3 / 2 + 1 / 2 : ℚ) = 2 by norm_num]
  rw [show ((2 : ℚ) : ℚ) = ((2 : ℤ) : ℚ) by norm_num, Int.floor_intCast]
  rfl

/-- C2 (as stated, refuted): with the one-sample envelope `[1]`, one frame
of video and the single collision time 3/88200 s (whose sample position is
exactly 1.5), the synthesized output does not equal the spec's reference
waveform that places the envelope at round(timestamp * sampleRate): the code
places the tick at sample 1 = int(1.5), the reference at sample 2 =
round(1.5). -/
theorem audio_round_reference_refuted :
    synthAudio [1] [3/88200] 1 ≠ synthRef roundIdx [1] [3/88200] 1 := by
  intro h
  have h1 : (synthAudio [1] [3/88200] 1).getD 1 0
      = (synthRef roundIdx [1] [3/88200] 1).getD 1 0 := by rw [h]
  have hb : (1 : ℕ) < bufLen [1] 1 := by rw [bufLen_single_736]; norm_num
  rw [getD_synthAudio _ _ _ _ hb, getD_synthRef _ _ _ _ _ hb] at h1
  simp only [List.map_cons, List.map_nil, List.sum_cons, List.sum_nil,
    eventIdx_three_half, roundIdx_three_half, envAt] at h1
  norm_num [clip1] at h1

/-- C2 (amended): for every collision log whose events start their envelope
inside the allocated buffer (the hypothesis under which the numpy
slice-addition is defined), the synthesized output equals the reference
waveform: a zero buffer of length sampleRate * runDuration + envelopeLength
onto which, for every event, the envelope is additively overlaid starting at
sample int(timestamp * sampleRate) — truncation, not rounding — with
overlapping envelopes summing, and every sample clipped to [-1, 1] once,
after all overlays. -/
theorem audio_synth_eq_trunc_reference (env log : List ℚ) (nframes : ℕ)
    (_hlog : ∀ t ∈ log, 0 ≤ t ∧ eventIdx t + env.length ≤ bufLen env nframes) :
    synthAudio env log nframes = synthRef eventIdx env log nframes := by
  apply List.ext_getElem
  · rw [length_synthAudio, length_synthRef]
  · intro i h1 h2
    have hi : i < bufLen env nframes := by rwa [length_synthAudio] at h1
    rw [← List.getD_eq_getElem _ (0 : ℚ) h1, ← List.getD_eq_getElem _ (0 : ℚ) h2,
      getD_synthAudio env log nframes i hi,
      getD_synthRef eventIdx env log nframes i hi]

/-- Witness for the amended C2 theorem at a concrete in-bounds input. -/
theorem audio_synth_eq_trunc_reference_witness :
    synthAudio [1] [1/44100] 1 = synthRef eventIdx [1] [1/44100] 1 :=
  audio_synth_eq_trunc_reference [1] [1/44100] 1 (by
    intro t ht
    rw [List.mem_singleton] at ht
    subst ht
    refine ⟨by norm_num, ?_⟩
    rw [eventIdx_one_sample, bufLen_single_736]
    norm_num)

/-- C9: synthesizing audio from any permutation of the collision log yields
exactly the same waveform (over the exact rational arithmetic of the
embedding): the per-event overlay is additive and commutative, and clipping
is applied only once after all overlays. -/
theorem audio_synth_perm_invariant (env l₁ l₂ : List ℚ) (nframes : ℕ)
    (hp : l₁.Perm l₂) :
    synthAudio env l₁ nframes = synthAudio env l₂ nframes := by
  apply List.ext_getElem
  · rw [length_synthAudio, length_synthAudio]
  · intro i h1 h2
    have hi : i < bufLen env nframes := by rwa [length_synthAudio] at h1
    rw [← List.getD_eq_getElem _ (0 : ℚ) h1, ← List.getD_eq_getElem _ (0 : ℚ) h2,
      getD_synthAudio env l₁ nframes i hi, getD_synthAudio env l₂ nframes i hi]
    congr 1
    exact (hp.map _).sum_eq

/-- Witness for C9 at a concrete two-event log and its transposition. -/
theorem audio_synth_perm_invariant_witness :
    synthAudio [1] [1/44100, 2/44100] 1 = synthAudio [1] [2/44100, 1/44100] 1 :=
  audio_synth_perm_invariant [1] [1/44100, 2/44100] [2/44100, 1/44100] 1
    (List.Perm.swap (2/44100) (1/44100) [])

/-! ## Claim theorems for the classifier, spawner and main loop -/

/-- C1: for every ball contact, the collision classifier appends a collision
event — timestamped with the elapsed seconds since the run started — exactly
when the absolute vertical velocity exceeds VELOCITY_THRESHOLD: at or below
the threshold the log is unchanged (zero events), above it exactly one event
is appended; and the callback returns True in both cases, never suppressing
the physical collision response. -/
theorem collision_classifier_spec (log : List ℚ) (vy nowMs startMs : ℚ) :
    (|vy| ≤ VELOCITY_THRESHOLD →
      (handle_collision log vy nowMs startMs).1 = log) ∧
    (VELOCITY_THRESHOLD < |vy| →
      (handle_collision log vy nowMs startMs).1
        = log ++ [(nowMs - startMs) / 1000]) ∧
    (handle_collision log vy nowMs startMs).2 = true := by
  unfold handle_collision
  by_cases h : VELOCITY_THRESHOLD < |vy|
  · rw [if_pos h]
    exact ⟨fun hle => absurd h (not_lt.mpr hle), fun _ => rfl, rfl⟩
  · rw [if_neg h]
    exact ⟨fun _ => rfl, fun hgt => absurd hgt h, rfl⟩

/-- Witness for C1: a ball falling at vy = 100 at 2.5 s into a run started
at 1.0 s appends exactly the event 1.5 and the callback returns True. -/
theorem collision_classifier_spec_witness :
    VELOCITY_THRESHOLD < |(100 : ℚ)| ∧
    (handle_collision [] 100 2500 1000).1 = [3/2] ∧
    (handle_collision [] 100 2500 1000).2 = true := by
  have hgt : VELOCITY_THRESHOLD < |(100 : ℚ)| := by norm_num [VELOCITY_THRESHOLD]
  have h := collision_classifier_spec [] 100 2500 1000
  refine ⟨hgt, ?_, h.2.2⟩
  rw [h.2.1 hgt]
  norm_num

/-- C5 (as stated, refuted): with the source's DROP_INTERVAL = 0.25 s, a
slow tick of 0.4 s followed by a tick of 0.1 s spawns two balls at elapsed
times 0.4 s and 0.5 s — the carried remainder lets the second spawn happen
only 0.1 s after the first, strictly less than DROP_INTERVAL. -/
theorem spawner_consecutive_gap_refuted :
    (runSpawner 2 DROP_INTERVAL [2/5, 1/10]).spawn_times = [2/5, 1/2] ∧
    (1/2 : ℚ) - 2/5 < DROP_INTERVAL := by
  constructor
  · norm_num [runSpawner, spawnTick, initSpawn, DROP_INTERVAL]
  · norm_num [DROP_INTERVAL]

/-- C5 (amended): over any sequence of tick deltas the accumulator carries
the remainder forward (subtracting dropInterval on each spawn rather than
resetting to zero), and consequently the elapsed time from the start of the
run to the k-th spawn (0-based index i, k = i + 1) is at least
k * dropInterval; individual consecutive gaps can be shorter than
dropInterval when the accumulator is catching up. -/
theorem spawner_cumulative_cadence (c : ℕ) (I : ℚ) (dts : List ℚ) (i : ℕ)
    (h : i < (runSpawner c I dts).spawn_times.length) :
    ((i : ℚ) + 1) * I ≤ (runSpawner c I dts).spawn_times.get ⟨i, h⟩ :=
  (runSpawner_inv c I dts).2.2 i h

/-- Witness for the amended C5 theorem: in the two-tick run above the first
spawn time (0.4 s) is at least 1 * DROP_INTERVAL. -/
theorem spawner_cumulative_cadence_witness :
    ((0 : ℚ) + 1) * DROP_INTERVAL
      ≤ (runSpawner 2 DROP_INTERVAL [2/5, 1/10]).spawn_times.getD 0 0 := by
  have hlen : 0 < (runSpawner 2 DROP_INTERVAL [2/5, 1/10]).spawn_times.length := by
    norm_num [runSpawner, spawnTick, initSpawn, DROP_INTERVAL]
  have h := spawner_cumulative_cadence 2 DROP_INTERVAL [2/5, 1/10] 0 hlen
  rw [List.getD_eq_getElem _ _ hlen]
  simpa [List.get_eq_getElem] using h

theorem foldl_spawnTick_dropped_le {c : ℕ} {I : ℚ} (dts : List ℚ)
    (s : SpawnState) (h : s.balls_dropped ≤ c) :
    (dts.foldl (spawnTick c I) s).balls_dropped ≤ c := by
  induction dts generalizing s with
  | nil => exact h
  | cons dt ds ih => exact ih _ (spawnTick_dropped_le dt h)

/-- C6: over any sequence of tick deltas the number of balls spawned never
exceeds the configured total: balls_dropped ≤ ballCount after every run
(and hence before and after every tick, every prefix of a tick sequence
being itself a run). -/
theorem spawned_never_exceeds_total (c : ℕ) (I : ℚ) (dts : List ℚ) :
    (runSpawner c I dts).balls_dropped ≤ c :=
  foldl_spawnTick_dropped_le dts initSpawn (Nat.zero_le c)

/-- C10: a single tick spawns at most one ball, even when the carried-over
accumulator holds two or more multiples of dropInterval — overdue spawns are
released one per tick. -/
theorem at_most_one_spawn_per_tick (c : ℕ) (I : ℚ) (s : SpawnState) (dt : ℚ) :
    (spawnTick c I s dt).balls_dropped ≤ s.balls_dropped + 1 ∧
    (spawnTick c I s dt).spawn_times.length ≤ s.spawn_times.length + 1 := by
  unfold spawnTick
  by_cases hc : s.balls_dropped < c ∧ I ≤ s.spawn_timer + dt
  · rw [if_pos hc]
    exact ⟨Nat.le_refl _, by simp⟩
  · rw [if_neg hc]
    exact ⟨Nat.le_succ _, Nat.le_succ _⟩

theorem loopTick_zero_balls {I T : ℚ} {s : LoopState} (dt : ℚ)
    (hrun : s.running = true) (hlast : s.last_ball_drop_time = none)
    (htimes : s.spawn.spawn_times = []) :
    (loopTick 0 I T s dt).running = true ∧
    (loopTick 0 I T s dt).last_ball_drop_time = none ∧
    (loopTick 0 I T s dt).spawn.spawn_times = [] := by
  unfold loopTick
  rw [hrun]
  simp [hlast, htimes]

/-- C7 (evaluating the code at the failing configuration): with ballCount
equal to 0, no tick ever spawns, last_ball_drop_time stays None, the Python
truthiness check on it is never satisfied, and the loop's running flag is
still true after every finite sequence of ticks — the main loop never
terminates, so it never produces the frame sequence, collision log or
silent waveform the claim describes. -/
theorem zero_ball_loop_never_terminates (I T : ℚ) (dts : List ℚ) :
    (runLoop 0 I T dts).running = true ∧
    (runLoop 0 I T dts).last_ball_drop_time = none ∧
    (runLoop 0 I T dts).spawn.spawn_times = [] := by
  have key : ∀ (l : List ℚ) (s : LoopState),
      s.running = true → s.last_ball_drop_time = none →
      s.spawn.spawn_times = [] →
      (l.foldl (loopTick 0 I T) s).running = true ∧
      (l.foldl (loopTick 0 I T) s).last_ball_drop_time = none ∧
      (l.foldl (loopTick 0 I T) s).spawn.spawn_times = [] := by
    intro l
    induction l with
    | nil => intro s h1 h2 h3; exact ⟨h1, h2, h3⟩
    | cons dt ds ih =>
      intro s h1 h2 h3
      obtain ⟨g1, g2, g3⟩ := loopTick_zero_balls dt h1 h2 h3
      exact ih _ g1 g2 g3
  exact key dts initLoop rfl rfl rfl

/-! ## Claim theorems for the board layout -/

theorem length_rowXs (W : ℚ) (r : ℕ) (levels : ℤ) (row : ℕ) :
    (rowXs W r levels row).length = (rowCount W r levels row).toNat := by
  simp [rowXs]

theorem get_rowXs (W : ℚ) (r : ℕ) (levels : ℤ) (row : ℕ) (i : ℕ)
    (hi : i < (rowXs W r levels row).length) :
    (rowXs W r levels row).get ⟨i, hi⟩
      = rowStart W r levels row + (i : ℚ) * spacing_x W levels := by
  rw [List.get_eq_getElem]
  simp [rowXs, List.getElem_ofFn]

theorem max_pegs_even_pos (W : ℚ) (r : ℕ) (levels : ℤ) (hl : 1 ≤ levels)
    (hW : 0 < W) (hr : 2 * (r : ℚ) ≤ W) : 1 ≤ max_pegs_even W r levels := by
  unfold max_pegs_even
  have hd : (0 : ℚ) < (levels : ℚ) + 1 := by
    have : (1 : ℚ) ≤ (levels : ℚ) := by exact_mod_cast hl
    linarith
  have hsp : 0 < spacing_x W levels := div_pos hW hd
  have hq : 0 ≤ (W - 2 * (r : ℚ)) / spacing_x W levels :=
    div_nonneg (by linarith) hsp.le
  have := pyInt_nonneg hq
  omega

/-- The occupied span of any nonempty row is centered: the first and last
peg x-coordinates of the row sum to the canvas width. -/
theorem rowXs_centered (W : ℚ) (r : ℕ) (levels : ℤ) (row : ℕ)
    (h0 : 0 < (rowXs W r levels row).length) :
    (rowXs W r levels row).get ⟨0, h0⟩ +
      (rowXs W r levels row).get
        ⟨(rowXs W r levels row).length - 1, Nat.sub_lt h0 Nat.one_pos⟩ = W := by
  rw [get_rowXs, get_rowXs]
  have hlen := length_rowXs W r levels row
  have hcount : 1 ≤ rowCount W r levels row := by
    rw [hlen] at h0; omega
  have hcast : (((rowXs W r levels row).length - 1 : ℕ) : ℚ)
      = ((rowCount W r levels row : ℤ) : ℚ) - 1 := by
    rw [hlen]
    have h1 : (1 : ℕ) ≤ (rowCount W r levels row).toNat := by omega
    rw [Nat.cast_sub h1]
    congr 1
    rw [← Int.cast_natCast, Int.toNat_of_nonneg (by omega)]
  rw [hcast]
  unfold rowCount rowStart left_margin occupied_width
  by_cases hp : row % 2 = 0
  · rw [if_pos hp, if_pos hp]
    push_cast
    ring
  · rw [if_neg hp, if_neg hp]
    push_cast
    ring

/-- C3: for every board configuration with levels >= 1 (positive width, peg
diameter at most the width), the layout produces exactly `levels` peg rows;
row `row` is `rowXs row`; an even-indexed row has `max_pegs_even` pegs, peg
i sitting at left_margin + i * spacing_x, and an odd-indexed row has
`max_pegs_even - 1` pegs, peg i sitting half a spacing further right; and in
every nonempty row the occupied span is centered in the canvas: the first
and last x-coordinates sum to the width (exactly, in rational arithmetic). -/
theorem peg_layout_rows (W : ℚ) (r : ℕ) (levels : ℤ) (hl : 1 ≤ levels)
    (hW : 0 < W) (hr : 2 * (r : ℚ) ≤ W) :
    (pegRows W r levels).length = levels.toNat ∧
    (∀ row (h : row < (pegRows W r levels).length),
      (pegRows W r levels).get ⟨row, h⟩ = rowXs W r levels row) ∧
    (∀ row : ℕ, row < levels.toNat →
      (row % 2 = 0 →
        ((rowXs W r levels row).length : ℤ) = max_pegs_even W r levels ∧
        ∀ i (hi : i < (rowXs W r levels row).length),
          (rowXs W r levels row).get ⟨i, hi⟩
            = left_margin W r levels + (i : ℚ) * spacing_x W levels) ∧
      (row % 2 = 1 →
        ((rowXs W r levels row).length : ℤ) = max_pegs_even W r levels - 1 ∧
        ∀ i (hi : i < (rowXs W r levels row).length),
          (rowXs W r levels row).get ⟨i, hi⟩
            = left_margin W r levels + spacing_x W levels / 2
              + (i : ℚ) * spacing_x W levels)) ∧
    (∀ row : ℕ, row < levels.toNat →
      ∀ (h0 : 0 < (rowXs W r levels row).length),
      (rowXs W r levels row).get ⟨0, h0⟩ +
        (rowXs W r levels row).get
          ⟨(rowXs W r levels row).length - 1, Nat.sub_lt h0 Nat.one_pos⟩ = W) := by
  have hmpe := max_pegs_even_pos W r levels hl hW hr
  refine ⟨by simp [pegRows], ?_, ?_, ?_⟩
  · intro row h
    rw [List.get_eq_getElem]
    simp [pegRows, List.getElem_ofFn]
  · intro row _
    constructor
    · intro hp
      constructor
      · rw [length_rowXs]
        unfold rowCount
        rw [if_pos hp, Int.toNat_of_nonneg (by omega)]
      · intro i hi
        rw [get_rowXs]
        unfold rowStart
        rw [if_pos hp]
    · intro hp
      have hp' : ¬ row % 2 = 0 := by omega
      constructor
      · rw [length_rowXs]
        unfold rowCount
        rw [if_neg hp', Int.toNat_of_nonneg (by omega)]
      · intro i hi
        rw [get_rowXs]
        unfold rowStart
        rw [if_neg hp']
  · intro row _ h0
    exact rowXs_centered W r levels row h0

/-- Witness for C3 at the source configuration (512 x 768 canvas, peg radius
2, 10 levels): ten rows, the first (even) row holding max_pegs_even = 11
pegs, and the first row's span centered. -/
theorem peg_layout_rows_witness :
    (pegRows 512 2 10).length = 10 ∧
    ((rowXs 512 2 10 0).length : ℤ) = max_pegs_even 512 2 10 := by
  have h := peg_layout_rows 512 2 10 (by norm_num) (by norm_num)
    (by push_cast; norm_num)
  refine ⟨by rw [h.1]; rfl, ?_⟩
  exact ((h.2.2.1 0 (by norm_num)).1 (by norm_num)).1

/-- For levels >= 1 the separator construction of galton.py lines 159-167
reproduces the bottom peg row: the separator x-positions between the two
outer walls are exactly the peg centers of row `levels - 1`. -/
theorem bottom_centers_eq_bottom_row (W : ℚ) (r : ℕ) (levels : ℤ)
    (hl : 1 ≤ levels) :
    bottom_centers W r levels = rowXs W r levels (levels - 1).toNat := by
  have hpar : bottom_row levels % 2 = 0 ↔ (levels - 1).toNat % 2 = 0 := by
    unfold bottom_row
    omega
  have hcnt : bottom_count W r levels = rowCount W r levels (levels - 1).toNat := by
    unfold bottom_count rowCount
    by_cases hp : bottom_row levels % 2 = 0
    · rw [if_pos hp, if_pos (hpar.mp hp)]
    · rw [if_neg hp, if_neg (fun h => hp (hpar.mpr h))]
  have hst : bottom_start W r levels = rowStart W r levels (levels - 1).toNat := by
    unfold bottom_start rowStart
    by_cases hp : bottom_row levels % 2 = 0
    · rw [if_pos hp, if_pos (hpar.mp hp)]
    · rw [if_neg hp, if_neg (fun h => hp (hpar.mpr h))]
  apply List.ext_getElem
  · simp [bottom_centers, rowXs, hcnt]
  · intro i h1 h2
    simp only [bottom_centers, rowXs, List.getElem_ofFn]
    rw [hst]

/-- C4 (amended): for every configuration with levels >= 1, the bin
separators are vertical segments at x = 0, at each bottom-row peg center
(row levels - 1 under the even/odd alternation), and at x = screen_width —
bottom_count + 2 segments in total — and each segment spans vertically from
the floor line itself (its lower endpoint sits exactly at y =
screen_height, not above it) up to a point slightly above the bottom peg
row (peg_radius // 2 above the bottom row's y, strictly above it whenever
peg_radius >= 2). -/
theorem bin_separator_layout (W H : ℚ) (r : ℕ) (levels : ℤ) (hl : 1 ≤ levels) :
    (walls_x W r levels).length = (bottom_count W r levels).toNat + 2 ∧
    (walls_x W r levels).head? = some 0 ∧
    (walls_x W r levels).getLast? = some W ∧
    bottom_centers W r levels = rowXs W r levels (levels - 1).toNat ∧
    (∀ s ∈ wallSegs W H r levels,
      s.1.2 = H ∧ s.2.2 = y_bottom H levels - ((sepMargin r : ℕ) : ℚ) ∧
      (2 ≤ r → s.2.2 < y_bottom H levels)) := by
  refine ⟨?_, ?_, ?_, bottom_centers_eq_bottom_row W r levels hl, ?_⟩
  · simp [walls_x, bottom_centers]
  · simp [walls_x]
  · show (([0] ++ bottom_centers W r levels) ++ [W]).getLast? = some W
    exact List.getLast?_concat _
  · intro s hs
    unfold wallSegs at hs
    rw [List.mem_map] at hs
    obtain ⟨x, _, hx⟩ := hs
    subst hx
    refine ⟨rfl, rfl, ?_⟩
    intro hr2
    show wall_top_y H r levels < y_bottom H levels
    unfold wall_top_y
    have h1 : 1 ≤ sepMargin r := by
      unfold sepMargin
      omega
    have : (1 : ℚ) ≤ ((sepMargin r : ℕ) : ℚ) := by exact_mod_cast h1
    linarith

/-- The full even row of the source configuration holds 11 pegs:
int((512 - 2*2) / (512/11)) + 1 = int(10.914...) + 1 = 11. -/
theorem max_pegs_even_src : max_pegs_even 512 2 10 = 11 := by
  unfold max_pegs_even spacing_x
  rw [show ((512 : ℚ) - 2 * ((2 : ℕ) : ℚ)) / ((512 : ℚ) / (((10 : ℤ) : ℚ) + 1))
      = 1397 / 128 by push_cast; norm_num]
  rw [pyInt_of_nonneg (by norm_num)]
  norm_num

/-- Witness for the amended C4 theorem at the source configuration: ten
bottom-row pegs plus the two outer walls give 12 separator segments. -/
theorem bin_separator_layout_witness : (walls_x 512 2 10).length = 12 := by
  have h := (bin_separator_layout 512 768 2 10 (by norm_num)).1
  rw [h]
  have hbc : bottom_count 512 2 10 = 10 := by
    unfold bottom_count bottom_row
    rw [if_neg (by decide), max_pegs_even_src]
    decide
  rw [hbc]
  rfl

/-- C4 (as stated, refuted): in galton.py the separator segments run from
(x, SCREEN_HEIGHT) to (x, wall_top_y), so their lower endpoints sit exactly
on the floor line y = SCREEN_HEIGHT — it is false that every segment starts
at a point strictly above (smaller y than) the floor line. -/
theorem bin_separator_above_floor_refuted :
    ¬ (∀ s ∈ wallSegs 512 768 2 10, s.1.2 < SCREEN_HEIGHT) := by
  intro h
  have hmem : (((0 : ℚ), SCREEN_HEIGHT), ((0 : ℚ), wall_top_y 768 2 10))
      ∈ wallSegs 512 768 2 10 := by
    have h0 : (0 : ℚ) ∈ walls_x 512 2 10 := by simp [walls_x]
    have := List.mem_map_of_mem
      (fun x => ((x, SCREEN_HEIGHT), (x, wall_top_y 768 2 10))) h0
    simpa [wallSegs, SCREEN_HEIGHT] using this
  have hlt := h _ hmem
  exact lt_irrefl _ hlt

/-- At zero levels the full even row would hold a single peg:
int((512 - 4) / (512/1)) + 1 = 0 + 1 = 1. -/
theorem max_pegs_even_zero_levels : max_pegs_even 512 2 0 = 1 := by
  unfold max_pegs_even spacing_x
  rw [show ((512 : ℚ) - 2 * ((2 : ℕ) : ℚ)) / ((512 : ℚ) / (((0 : ℤ) : ℚ) + 1))
      = 127 / 128 by push_cast; norm_num]
  rw [pyInt_of_nonneg (by norm_num)]
  norm_num

/-- C8 (evaluating the code at the failing configuration): at the source
canvas with levels = 0 the layout signals no configuration error — the two
divisions succeed (offset_y = 192, spacing_x = 512), the peg loop simply
produces no rows, and the separator construction still creates wall bodies
at x = 0 and x = 512 — while for every levels >= 1 the formulas resolve
with no division error, as the second half of the claim says. -/
theorem layout_no_failfast_at_zero_levels :
    layoutSpacings 512 768 0 = some (192, 512) ∧
    pegRows 512 2 0 = [] ∧
    walls_x 512 2 0 = [0, 512] ∧
    (∀ levels : ℤ, 1 ≤ levels → (layoutSpacings 512 768 levels).isSome = true) := by
  refine ⟨?_, ?_, ?_, ?_⟩
  · unfold layoutSpacings offset_y spacing_x
    rw [if_neg (by omega)]
    norm_num
  · simp [pegRows]
  · have hbc : bottom_count 512 2 0 = 0 := by
      unfold bottom_count bottom_row
      rw [if_neg (by decide), max_pegs_even_zero_levels]
      decide
    unfold walls_x bottom_centers
    rw [hbc]
    simp
  · intro levels hlev
    unfold layoutSpacings
    rw [if_neg (by omega)]
    rfl

end Galton
